import Mathlib

/-!
Verification of the `$pull` update modifier (`src/mongo/db/ops/modifier_pull.cpp`).

The modifier removes, from an array field inside a BSON document, every element
that matches a removal criterion.  Its lifecycle is `init` (not modelled here:
no claim concerns it), `prepare`, `apply`, `log`.

The document tree (`mutablebson`), the path resolver (`pathsupport`), the match
expression engine and the log builder are collaborators that live outside the
sources of this repository; they are modelled from the spec at their interface
boundary, as documented on each definition.  The logic of `ModifierPull` itself
(`prepare` / `apply` / `log` / `isMatch`) is translated statement by statement
from `modifier_pull.cpp`.
-/

/-- Modelled from the spec: BSON type tags used by the Document Tree
(`Element::getType()`); only the types exercised by this development. -/
inductive BSONType : Type where
  | numberInt
  | numberDouble
  | string
  | boolean
  | array
  | object
deriving DecidableEq, Repr

mutual
/-- Modelled from the spec: a value in the Document Tree.  Arrays and objects
hold named child elements (array children carry their index as a name,
an artifact the log branch of the modifier deliberately discards).
Doubles are modelled only at integral points (`doubleVal n` stands for the
double `n.0`), which is all the claims exercise. -/
inductive BsonValue : Type where
  | intVal (n : Int)
  | doubleVal (n : Int)
  | strVal (s : String)
  | boolVal (b : Bool)
  | arrayVal (elts : List BsonElement)
  | objVal (fields : List BsonElement)

/-- Modelled from the spec: a named node of the Document Tree. -/
inductive BsonElement : Type where
  | mk (name : String) (value : BsonValue)
end

/-- Field name of a tree node. -/
def BsonElement.name : BsonElement → String
  | .mk n _ => n

/-- Value carried by a tree node. -/
def BsonElement.value : BsonElement → BsonValue
  | .mk _ v => v

/-- Type tag of a value (`Element::getType()`). -/
def BsonValue.getType : BsonValue → BSONType
  | .intVal _ => .numberInt
  | .doubleVal _ => .numberDouble
  | .strVal _ => .string
  | .boolVal _ => .boolean
  | .arrayVal _ => .array
  | .objVal _ => .object

mutual
/-- Modelled from the spec: the Document Tree's canonical, type-aware deep
value equality (`Element::compareWithBSONElement` tested against zero, with
`considerFieldName = false`, so the top-level field name plays no role: only
the values are compared).  Values of different types are never equal. -/
def BsonValue.valueEq : BsonValue → BsonValue → Bool
  | .intVal x, .intVal y => x == y
  | .doubleVal x, .doubleVal y => x == y
  | .strVal x, .strVal y => x == y
  | .boolVal x, .boolVal y => x == y
  | .arrayVal xs, .arrayVal ys => BsonElement.eltListEq xs ys
  | .objVal xs, .objVal ys => BsonElement.eltListEq xs ys
  | _, _ => false

/-- Equality of child elements below the top level: name and value. -/
def BsonElement.eltEq : BsonElement → BsonElement → Bool
  | .mk n v, .mk m w => n == m && BsonValue.valueEq v w

/-- Pointwise equality of child lists. -/
def BsonElement.eltListEq : List BsonElement → List BsonElement → Bool
  | [], [] => true
  | x :: xs, y :: ys => BsonElement.eltEq x y && BsonElement.eltListEq xs ys
  | _, _ => false
end

/-- First field with the given name in an object's child list. -/
def lookupField : List BsonElement → String → Option BsonValue
  | [], _ => none
  | e :: rest, p => if e.name = p then some e.value else lookupField rest p

/-- Child of an array at a given index. -/
def childAt : List BsonElement → Nat → Option BsonValue
  | [], _ => none
  | e :: _, 0 => some e.value
  | _ :: rest, n + 1 => childAt rest n

/-- Numeric value of one decimal digit. -/
def digitVal (c : Char) : Option Nat :=
  if 48 ≤ c.toNat ∧ c.toNat ≤ 57 then some (c.toNat - 48) else none

/-- Accumulating decimal parse of the remaining characters. -/
def strIndexGo : List Char → Nat → Option Nat
  | [], acc => some acc
  | c :: rest, acc =>
      match digitVal c with
      | none => none
      | some d => strIndexGo rest (acc * 10 + d)

/-- Reading a path part as an array index: all-digit, non-empty strings only. -/
def strToIndex (s : String) : Option Nat :=
  match s.toList with
  | [] => none
  | c :: rest => strIndexGo (c :: rest) 0

/-- Modelled from the spec: one step of path navigation in the Document Tree —
object children are addressed by field name, array children by the numeric
value of the path part. -/
def lookupChild (v : BsonValue) (p : String) : Option BsonValue :=
  match v with
  | .objVal fields => lookupField fields p
  | .arrayVal elts =>
      match strToIndex p with
      | some i => childAt elts i
      | none => none
  | _ => none

/-- Value that a (possibly empty) path resolves to, when every part resolves. -/
def getAtPath : List String → BsonValue → Option BsonValue
  | [], v => some v
  | p :: rest, v =>
      match lookupChild v p with
      | none => none
      | some w => getAtPath rest w

/-- Rewrite the value of the first field with the given name (other fields and
all names untouched). -/
def updateField : List BsonElement → String → (BsonValue → BsonValue) → List BsonElement
  | [], _, _ => []
  | e :: rest, p, f =>
      if e.name = p then BsonElement.mk e.name (f e.value) :: rest
      else e :: updateField rest p f

/-- Rewrite the value of the array child at a given index. -/
def updateChildAt : List BsonElement → Nat → (BsonValue → BsonValue) → List BsonElement
  | [], _, _ => []
  | e :: rest, 0, f => BsonElement.mk e.name (f e.value) :: rest
  | e :: rest, n + 1, f => e :: updateChildAt rest n f

/-- One step of in-place modification, the write-side mirror of `lookupChild`. -/
def updateChild (v : BsonValue) (p : String) (f : BsonValue → BsonValue) : BsonValue :=
  match v with
  | .objVal fields => .objVal (updateField fields p f)
  | .arrayVal elts =>
      match strToIndex p with
      | some i => .arrayVal (updateChildAt elts i f)
      | none => .arrayVal elts
  | w => w

/-- In-place modification of the value a full path resolves to. -/
def updateAtPath : List String → (BsonValue → BsonValue) → BsonValue → BsonValue
  | [], f, v => f v
  | p :: rest, f, v => updateChild v p (fun w => updateAtPath rest f w)

/-- Walk of the remaining path parts for longest-prefix resolution: stops at
the deepest resolvable node, reporting the index of the last resolved part. -/
def findLongestPrefGo : List String → BsonValue → Nat → Nat × BsonValue
  | [], v, idx => (idx, v)
  | p :: rest, v, idx =>
      match lookupChild v p with
      | none => (idx, v)
      | some w => findLongestPrefGo rest w (idx + 1)

/-- Modelled from the spec: `pathsupport::findLongestPrefix` — longest-prefix
resolution of a path descriptor against the document root.  `none` is the
`NonExistentPath` outcome (not even the first part exists); otherwise the
result is the index of the deepest resolved part and the node found there. -/
def findLongestPref (parts : List String) (root : BsonValue) : Option (Nat × BsonValue) :=
  match parts with
  | [] => none
  | p :: rest =>
      match lookupChild root p with
      | none => none
      | some w => some (findLongestPrefGo rest w 0)

/-- The full dotted field path (`FieldRef::dottedField`). -/
def dottedField (parts : List String) : String :=
  String.intercalate "." parts

example :
    findLongestPref ["a", "b"]
      (BsonValue.objVal [BsonElement.mk "a" (BsonValue.objVal [BsonElement.mk "b" (BsonValue.intVal 7)])]) =
    some (1, BsonValue.intVal 7) := rfl

example :
    findLongestPref ["a", "b"]
      (BsonValue.objVal [BsonElement.mk "a" (BsonValue.intVal 3)]) =
    some (0, BsonValue.intVal 3) := rfl

example :
    findLongestPref ["a"] (BsonValue.objVal [BsonElement.mk "b" (BsonValue.intVal 3)]) = none := rfl

example :
    getAtPath ["a", "1"]
      (BsonValue.objVal [BsonElement.mk "a"
        (BsonValue.arrayVal [BsonElement.mk "0" (BsonValue.intVal 5), BsonElement.mk "1" (BsonValue.intVal 6)])]) =
    some (BsonValue.intVal 6) := rfl

/-- Error codes used by `ModifierPull` (`mongo/base/error_codes.h` names).  The
spec's error taxonomy calls the `BadValue` class `InvalidArgument` and the
`InternalError` class `Internal`. -/
inductive ErrorCodes : Type where
  | badValue
  | internalError
  | nonExistentPath
deriving DecidableEq, Repr

/-- A `mongo::Status`: OK or an error code with a reason string. -/
inductive Status : Type where
  | ok
  | err (code : ErrorCodes) (msg : String)
deriving DecidableEq, Repr

/-- The `ModifierInterface::ExecInfo` output struct, restricted to the slots
`ModifierPull` interacts with: slot 0 of the `fieldRef` array (`none` models
the driver-initialized NULL, i.e. "not written") and the `noOp` boolean (which
the driver initializes to `false`). -/
structure ExecInfo : Type where
  fieldRef0 : Option (List String)
  noOp : Bool
deriving DecidableEq, Repr

/-- `ModifierPull::PreparedState`.  The document reference is not stored here:
the embedding passes documents explicitly.  `elemFound = none` models the
not-ok element `doc.end()`; node references collected for removal are modelled
as stable array positions (the spec's stable node-identity scheme). -/
structure PreparedState : Type where
  idxFound : Nat
  elemFound : Option BsonValue
  boundDollar : String
  elementsToRemove : List Nat
  noOp : Bool

/-- `ModifierPull` after a successful `init`: the parsed field path with the
position of the positional `$` part (0 = none, as in the C++ test
`if (_posDollar)`), the raw criterion value `_exprElt`, the compiled match
expression (modelled as a boolean predicate over the BSON object it is
evaluated against), and the primitive-wrapping flag. -/
structure ModifierPull : Type where
  fieldRef : List String
  posDollar : Nat
  exprElt : BsonValue
  matchExpr : Option (BsonValue → Bool)
  matcherOnPrimitive : Bool

/-- `ModifierPull::isMatch`: literal mode compares values with the tree's
canonical equality, field names ignored; primitive mode wraps the value in a
single anonymous field; object mode rejects non-objects and evaluates the
compiled expression on the candidate's object value. -/
def ModifierPull.isMatch (m : ModifierPull) (element : BsonElement) : Bool :=
  match m.matchExpr with
  | none => BsonValue.valueEq element.value m.exprElt
  | some expr =>
      if m.matcherOnPrimitive then
        expr (BsonValue.objVal [BsonElement.mk "" element.value])
      else
        match element.value with
        | BsonValue.objVal fields => expr (BsonValue.objVal fields)
        | _ => false

/-- The cursor walk of `prepare` (lines 161–167): positions of the array
children that satisfy the criterion, in left-to-right order. -/
def ModifierPull.collectToRemove (m : ModifierPull) : List BsonElement → Nat → List Nat
  | [], _ => []
  | e :: rest, i =>
      if m.isMatch e then i :: m.collectToRemove rest (i + 1)
      else m.collectToRemove rest (i + 1)

/-- The `$`-binding step of `prepare` (lines 115–121): substitute the matched
field for the positional part.  A no-op when the path has no positional part. -/
def ModifierPull.bindDollar (m : ModifierPull) (matchedField : String) : ModifierPull :=
  if m.posDollar ≠ 0 then
    ModifierPull.mk (m.fieldRef.set m.posDollar matchedField) m.posDollar m.exprElt
      m.matchExpr m.matcherOnPrimitive
  else m

/-- Everything `prepare` returns or writes: its status, the modifier (whose
`_fieldRef` the positional binding may have rewritten), the fresh prepared
state, the caller's `ExecInfo` after any writes, and the document after the
call (which `prepare` only reads). -/
structure PrepareResult : Type where
  status : Status
  mod : ModifierPull
  ps : PreparedState
  execInfo : ExecInfo
  doc : BsonValue

/-- The three no-op early outs of `prepare` (lines 142–147, 155–159, 169–172):
success, with the no-op flag set on both the prepared state and `execInfo`. -/
def noOpResult (m1 : ModifierPull) (root : BsonValue) (ps : PreparedState) :
    PrepareResult :=
  PrepareResult.mk Status.ok m1
    (PreparedState.mk ps.idxFound ps.elemFound ps.boundDollar ps.elementsToRemove true)
    (ExecInfo.mk (some m1.fieldRef) true) root

/-- `prepare` after path resolution (lines 138–174): registers the field path
in `execInfo`, then decides between the partial/missing no-op, the non-array
error, the empty-array no-op, the no-matches no-op, and the success carrying
the positions to remove. -/
def afterResolve (m1 : ModifierPull) (root : BsonValue) (e : ExecInfo) (ps : PreparedState) :
    PrepareResult :=
  let e1 := ExecInfo.mk (some m1.fieldRef) e.noOp
  match ps.elemFound with
  | none => noOpResult m1 root ps
  | some v =>
      if ps.idxFound < m1.fieldRef.length - 1 then noOpResult m1 root ps
      else
        match v with
        | BsonValue.arrayVal elts =>
            if elts.isEmpty then noOpResult m1 root ps
            else
              let toRemove := m1.collectToRemove elts 0
              if toRemove.isEmpty then
                noOpResult m1 root
                  (PreparedState.mk ps.idxFound ps.elemFound ps.boundDollar toRemove ps.noOp)
              else
                PrepareResult.mk Status.ok m1
                  (PreparedState.mk ps.idxFound ps.elemFound ps.boundDollar toRemove false)
                  e1 root
        | _ =>
            PrepareResult.mk
              (Status.err ErrorCodes.badValue "Cannot apply $pull to a non-array value")
              m1 ps e1 root

/-- `ModifierPull::prepare` (lines 108–175).  The `matchedField` check and the
positional binding come first; path resolution treats `NonExistentPath` as
"element not found" (`elemFound = none`); everything else is `afterResolve`.
The resolution error early-out of line 134 has no counterpart here because the
modelled resolver (`findLongestPref`) has only the `NonExistentPath` failure. -/
def ModifierPull.prepare (m : ModifierPull) (root : BsonValue) (matchedField : String)
    (execInfo : ExecInfo) : PrepareResult :=
  if m.posDollar ≠ 0 ∧ matchedField = "" then
    PrepareResult.mk (Status.err ErrorCodes.badValue "matched field not provided") m
      (PreparedState.mk 0 none "" [] false) execInfo root
  else
    let bound := if m.posDollar ≠ 0 then matchedField else ""
    let m1 := m.bindDollar matchedField
    match findLongestPref m1.fieldRef root with
    | none => afterResolve m1 root execInfo (PreparedState.mk 0 none bound [] false)
    | some (idx, v) => afterResolve m1 root execInfo (PreparedState.mk idx (some v) bound [] false)

/-- Membership test on the recorded removal positions. -/
def natListHas : List Nat → Nat → Bool
  | [], _ => false
  | x :: rest, i => x == i || natListHas rest i

/-- Keep the array children whose position was not selected for removal,
counting positions from `i` (the read-side mirror of `collectToRemove`). -/
def removeIndices : List BsonElement → List Nat → Nat → List BsonElement
  | [], _, _ => []
  | e :: rest, toRemove, i =>
      if natListHas toRemove i then removeIndices rest toRemove (i + 1)
      else e :: removeIndices rest toRemove (i + 1)

/-- Structural detach of the selected children from an array node
(`Element::remove` applied to each recorded reference). -/
def pullElements (toRemove : List Nat) : BsonValue → BsonValue
  | BsonValue.arrayVal elts => BsonValue.arrayVal (removeIndices elts toRemove 0)
  | v => v

/-- `ModifierPull::apply` (lines 177–189): removes every recorded element from
the resolved node — the node the full `_fieldRef` path reached — and returns
OK unconditionally. -/
def ModifierPull.apply (m : ModifierPull) (ps : PreparedState) (doc : BsonValue) :
    Status × BsonValue :=
  (Status.ok, updateAtPath m.fieldRef (pullElements ps.elementsToRemove) doc)

example :
    ((ModifierPull.mk ["a"] 0 (BsonValue.intVal 2) none false).prepare
      (BsonValue.objVal [BsonElement.mk "a" (BsonValue.arrayVal
        [BsonElement.mk "0" (BsonValue.intVal 1), BsonElement.mk "1" (BsonValue.intVal 2),
         BsonElement.mk "2" (BsonValue.intVal 2)])]) "" (ExecInfo.mk none false)).status =
    Status.ok := rfl

example :
    ((ModifierPull.mk ["a"] 0 (BsonValue.intVal 2) none false).prepare
      (BsonValue.objVal [BsonElement.mk "a" (BsonValue.arrayVal
        [BsonElement.mk "0" (BsonValue.intVal 1), BsonElement.mk "1" (BsonValue.intVal 2),
         BsonElement.mk "2" (BsonValue.intVal 2)])]) "" (ExecInfo.mk none false)).ps.elementsToRemove =
    [1, 2] := rfl

/-- Modelled from the spec: the Change-Log Accumulator.  `setEntries` holds the
entries added through `LogBuilder::addToSets` (full dotted path paired with the
logged value) and `unsetEntries` those added through `addToUnsets`. -/
structure LogBuilder : Type where
  setEntries : List BsonElement
  unsetEntries : List BsonElement

/-- Modelled from the spec: the outcomes of the accumulator-side operations
`log` invokes, which the accumulator may reject.  `copyOk i` / `pushOk i`
govern the copy and `pushBack` of the i-th remaining array child;
`makeIntOk` / `makeArrayOk` govern creating the log element itself; the two
`Status` slots are what `addToSets` / `addToUnsets` return. -/
structure LogOracle : Type where
  makeIntOk : Bool
  makeArrayOk : Bool
  copyOk : Nat → Bool
  pushOk : Nat → Bool
  addToSetsResult : Status
  addToUnsetsResult : Status

/-- The oracle of an accumulator that accepts every operation. -/
def LogOracle.allOk : LogOracle :=
  LogOracle.mk true true (fun _ => true) (fun _ => true) Status.ok Status.ok

/-- The copy loop of `log`'s set branch (lines 225–243): each remaining child
is copied with an empty field name (`makeElementWithNewFieldName(StringData(),
curr.getValue())`) and pushed onto the log array.  A rejected copy yields
`InternalError` "could create copy element"; a rejected `pushBack` yields
`BadValue` "could not append entry for $pull log". -/
def copyChildren (oracle : LogOracle) : List BsonElement → Nat → Except Status (List BsonElement)
  | [], _ => Except.ok []
  | e :: rest, i =>
      if ¬ oracle.copyOk i then
        Except.error (Status.err ErrorCodes.internalError "could create copy element")
      else if ¬ oracle.pushOk i then
        Except.error (Status.err ErrorCodes.badValue "could not append entry for $pull log")
      else
        match copyChildren oracle rest (i + 1) with
        | Except.error s => Except.error s
        | Except.ok cs => Except.ok (BsonElement.mk "" e.value :: cs)

/-- The children the stored `elemFound` reference sees at log time.  In the
source `log` walks the live node; after `apply` that node holds exactly the
value the full `_fieldRef` path reaches in the current document. -/
def currentArrayChildren (m : ModifierPull) (doc : BsonValue) : List BsonElement :=
  match getAtPath m.fieldRef doc with
  | some (BsonValue.arrayVal elts) => elts
  | _ => []

/-- `ModifierPull::log` (lines 191–247).  Branch A (path missing or partially
resolved): one unset entry for the full dotted path, carrying the placeholder
value 1.  Branch B (path fully resolved): one set entry mapping the full
dotted path to an anonymous copy of the array as it currently stands. -/
def ModifierPull.log (m : ModifierPull) (ps : PreparedState) (doc : BsonValue)
    (oracle : LogOracle) (lb : LogBuilder) : Status × LogBuilder :=
  if ps.elemFound.isNone ∨ ps.idxFound < m.fieldRef.length - 1 then
    if ¬ oracle.makeIntOk then
      (Status.err ErrorCodes.internalError "cannot create log entry for $pull mod", lb)
    else
      match oracle.addToUnsetsResult with
      | Status.ok =>
          (Status.ok, LogBuilder.mk lb.setEntries
            (lb.unsetEntries ++ [BsonElement.mk (dottedField m.fieldRef) (BsonValue.intVal 1)]))
      | s => (s, lb)
  else
    if ¬ oracle.makeArrayOk then
      (Status.err ErrorCodes.internalError "cannot create details for $pull mod", lb)
    else
      match copyChildren oracle (currentArrayChildren m doc) 0 with
      | Except.error s => (s, lb)
      | Except.ok copies =>
          match oracle.addToSetsResult with
          | Status.ok =>
              (Status.ok, LogBuilder.mk
                (lb.setEntries ++
                  [BsonElement.mk (dottedField m.fieldRef) (BsonValue.arrayVal copies)])
                lb.unsetEntries)
          | s => (s, lb)

example :
    ((ModifierPull.mk ["a"] 0 (BsonValue.intVal 2) none false).log
      (PreparedState.mk 0 none "" [] true)
      (BsonValue.objVal []) LogOracle.allOk (LogBuilder.mk [] [])).2.unsetEntries =
    [BsonElement.mk "a" (BsonValue.intVal 1)] := rfl

theorem bindDollar_posDollar (m : ModifierPull) (mf : String) :
    (m.bindDollar mf).posDollar = m.posDollar := by
  unfold ModifierPull.bindDollar
  split <;> rfl

theorem bindDollar_isMatch (m : ModifierPull) (mf : String) (e : BsonElement) :
    (m.bindDollar mf).isMatch e = m.isMatch e := by
  unfold ModifierPull.bindDollar
  split <;> rfl

theorem bindDollar_collect (m : ModifierPull) (mf : String) (elts : List BsonElement) (i : Nat) :
    (m.bindDollar mf).collectToRemove elts i = m.collectToRemove elts i := by
  induction elts generalizing i with
  | nil => rfl
  | cons e rest ih =>
      simp only [ModifierPull.collectToRemove, bindDollar_isMatch, ih]

theorem bindDollar_idem (m : ModifierPull) (mf : String) :
    (m.bindDollar mf).bindDollar mf = m.bindDollar mf := by
  by_cases h : m.posDollar = 0
  · simp [ModifierPull.bindDollar, h]
  · simp [ModifierPull.bindDollar, h, List.set_set]

theorem collect_eq_nil_of_no_match (m : ModifierPull) (elts : List BsonElement) (i : Nat)
    (h : ∀ e ∈ elts, m.isMatch e = false) :
    m.collectToRemove elts i = [] := by
  induction elts generalizing i with
  | nil => rfl
  | cons e rest ih =>
      have he : m.isMatch e = false := h e (List.mem_cons_self e rest)
      simp only [ModifierPull.collectToRemove, he, Bool.false_eq_true, if_false]
      exact ih (i + 1) (fun x hx => h x (List.mem_cons_of_mem e hx))

theorem collect_ne_nil_of_match (m : ModifierPull) (elts : List BsonElement) (i : Nat)
    (h : ∃ e ∈ elts, m.isMatch e = true) :
    m.collectToRemove elts i ≠ [] := by
  induction elts generalizing i with
  | nil => simp at h
  | cons e rest ih =>
      by_cases he : m.isMatch e
      · simp only [ModifierPull.collectToRemove, he, if_pos]
        exact List.cons_ne_nil _ _
      · simp only [ModifierPull.collectToRemove, he, Bool.false_eq_true, if_false]
        rcases h with ⟨x, hx, hmx⟩
        rcases List.mem_cons.mp hx with hx1 | hx2
        · exact absurd (hx1 ▸ hmx) (by simpa using he)
        · exact ih (i + 1) ⟨x, hx2, hmx⟩

theorem mem_collect_ge (m : ModifierPull) (elts : List BsonElement) (i j : Nat)
    (h : j ∈ m.collectToRemove elts i) : i ≤ j := by
  induction elts generalizing i with
  | nil => simp [ModifierPull.collectToRemove] at h
  | cons e rest ih =>
      by_cases he : m.isMatch e
      · simp only [ModifierPull.collectToRemove, he, if_pos, List.mem_cons] at h
        rcases h with h1 | h2
        · exact h1 ▸ Nat.le_refl j
        · exact Nat.le_of_succ_le (ih (i + 1) h2)
      · simp only [ModifierPull.collectToRemove, he, Bool.false_eq_true, if_false] at h
        exact Nat.le_of_succ_le (ih (i + 1) h)

theorem natListHas_false (l : List Nat) (j : Nat) (h : ∀ x ∈ l, x ≠ j) :
    natListHas l j = false := by
  induction l with
  | nil => rfl
  | cons x rest ih =>
      have hx : (x == j) = false := beq_eq_false_iff_ne.mpr (h x (List.mem_cons_self x rest))
      simp only [natListHas, hx, Bool.false_or]
      exact ih (fun y hy => h y (List.mem_cons_of_mem x hy))

theorem removeIndices_cons_lt (rest : List BsonElement) (t : List Nat) (i j : Nat)
    (hij : i < j) : removeIndices rest (i :: t) j = removeIndices rest t j := by
  induction rest generalizing j with
  | nil => rfl
  | cons e r ih =>
      have hne : (i == j) = false := beq_eq_false_iff_ne.mpr (Nat.ne_of_lt hij)
      simp only [removeIndices, natListHas, hne, Bool.false_or]
      rw [ih (j + 1) (Nat.lt_succ_of_lt hij)]

theorem removeIndices_collect (m : ModifierPull) (elts : List BsonElement) (i : Nat) :
    removeIndices elts (m.collectToRemove elts i) i =
      elts.filter (fun e => ! m.isMatch e) := by
  induction elts generalizing i with
  | nil => rfl
  | cons e rest ih =>
      by_cases he : m.isMatch e
      · simp only [ModifierPull.collectToRemove, he, if_pos]
        simp only [removeIndices, natListHas, beq_self_eq_true, Bool.true_or, if_pos]
        rw [removeIndices_cons_lt rest _ i (i + 1) (Nat.lt_succ_self i), ih (i + 1)]
        simp [List.filter_cons, he]
      · have he' : m.isMatch e = false := by simpa using he
        simp only [ModifierPull.collectToRemove, he', Bool.false_eq_true, if_false]
        have hhas : natListHas (m.collectToRemove rest (i + 1)) i = false := by
          apply natListHas_false
          intro x hx
          have := mem_collect_ge m rest (i + 1) x hx
          omega
        simp only [removeIndices, hhas, Bool.false_eq_true, if_false]
        rw [ih (i + 1)]
        simp [List.filter_cons, he']

theorem allOk_copyOk (i : Nat) : LogOracle.allOk.copyOk i = true := rfl

theorem allOk_pushOk (i : Nat) : LogOracle.allOk.pushOk i = true := rfl

theorem allOk_makeIntOk : LogOracle.allOk.makeIntOk = true := rfl

theorem allOk_makeArrayOk : LogOracle.allOk.makeArrayOk = true := rfl

theorem allOk_addToSetsResult : LogOracle.allOk.addToSetsResult = Status.ok := rfl

theorem allOk_addToUnsetsResult : LogOracle.allOk.addToUnsetsResult = Status.ok := rfl

theorem copyChildren_allOk (elts : List BsonElement) (i : Nat) :
    copyChildren LogOracle.allOk elts i =
      Except.ok (elts.map (fun e => BsonElement.mk "" e.value)) := by
  induction elts generalizing i with
  | nil => rfl
  | cons e rest ih =>
      simp only [copyChildren, allOk_copyOk, allOk_pushOk, not_true, if_false, ih (i + 1),
        List.map_cons]

theorem copyChildren_error (oracle : LogOracle) (elts : List BsonElement) (i : Nat) (s : Status)
    (h : copyChildren oracle elts i = Except.error s) :
    s = Status.err ErrorCodes.internalError "could create copy element" ∨
      s = Status.err ErrorCodes.badValue "could not append entry for $pull log" := by
  induction elts generalizing i with
  | nil => simp [copyChildren] at h
  | cons e rest ih =>
      simp only [copyChildren] at h
      split at h
      · injection h with h1
        exact Or.inl h1.symm
      · split at h
        · injection h with h1
          exact Or.inr h1.symm
        · split at h
          next s2 heq =>
            injection h with h1
            subst h1
            exact ih (i + 1) heq
          next cs heq => injection h

theorem findLongestPrefGo_full (rest : List String) (w : BsonValue) (idx : Nat)
    (v : BsonValue) (h : findLongestPrefGo rest w idx = (idx + rest.length, v)) :
    getAtPath rest w = some v := by
  induction rest generalizing w idx with
  | nil =>
      simp only [findLongestPrefGo, List.length_nil, Nat.add_zero, Prod.mk.injEq] at h
      simp [getAtPath, h.2]
  | cons p r ih =>
      rcases hl : lookupChild w p with _ | u
      · simp only [findLongestPrefGo, hl, Prod.mk.injEq, List.length_cons] at h
        have := h.1
        omega
      · simp only [findLongestPrefGo, hl, List.length_cons] at h
        have harg : findLongestPrefGo r u (idx + 1) = (idx + 1 + r.length, v) := by
          rw [h]
          congr 1
          omega
        simp only [getAtPath, hl]
        exact ih u (idx + 1) harg

theorem findLongestPrefGo_of_getAtPath (rest : List String) (w : BsonValue) (idx : Nat)
    (v : BsonValue) (h : getAtPath rest w = some v) :
    findLongestPrefGo rest w idx = (idx + rest.length, v) := by
  induction rest generalizing w idx with
  | nil =>
      simp only [getAtPath, Option.some.injEq] at h
      simp [findLongestPrefGo, h]
  | cons p r ih =>
      rcases hl : lookupChild w p with _ | u
      · simp only [getAtPath, hl] at h
        exact Option.noConfusion h
      · simp only [getAtPath, hl] at h
        simp only [findLongestPrefGo, hl, ih u (idx + 1) h, List.length_cons, Prod.mk.injEq]
        exact ⟨by omega, trivial⟩

theorem findLongestPref_full (parts : List String) (root : BsonValue) (v : BsonValue)
    (h : findLongestPref parts root = some (parts.length - 1, v)) (hne : parts ≠ []) :
    getAtPath parts root = some v := by
  rcases parts with _ | ⟨p, rest⟩
  · exact absurd rfl hne
  · rcases hl : lookupChild root p with _ | u
    · simp only [findLongestPref, hl] at h
      exact Option.noConfusion h
    · simp only [findLongestPref, hl, Option.some.injEq, List.length_cons] at h
      have hlen : rest.length + 1 - 1 = 0 + rest.length := by omega
      rw [hlen] at h
      simp only [getAtPath, hl]
      exact findLongestPrefGo_full rest u 0 v h

theorem findLongestPref_of_getAtPath (parts : List String) (root : BsonValue) (v : BsonValue)
    (h : getAtPath parts root = some v) (hne : parts ≠ []) :
    findLongestPref parts root = some (parts.length - 1, v) := by
  rcases parts with _ | ⟨p, rest⟩
  · exact absurd rfl hne
  · rcases hl : lookupChild root p with _ | u
    · simp only [getAtPath, hl] at h
      exact Option.noConfusion h
    · simp only [getAtPath, hl] at h
      simp only [findLongestPref, hl, findLongestPrefGo_of_getAtPath rest u 0 v h,
        List.length_cons, Option.some.injEq, Prod.mk.injEq]
      exact ⟨by omega, trivial⟩

theorem lookupField_updateField (fields : List BsonElement) (p : String)
    (f : BsonValue → BsonValue) (w : BsonValue) (h : lookupField fields p = some w) :
    lookupField (updateField fields p f) p = some (f w) := by
  induction fields with
  | nil => simp [lookupField] at h
  | cons e rest ih =>
      obtain ⟨n, val⟩ := e
      by_cases hn : (BsonElement.mk n val).name = p
      · simp only [lookupField, hn, if_pos, Option.some.injEq] at h
        simp only [BsonElement.name] at hn
        simp only [BsonElement.value] at h
        simp [lookupField, updateField, BsonElement.name, BsonElement.value, hn, h]
      · simp only [lookupField, hn, if_false] at h
        simp only [BsonElement.name] at hn
        simp only [updateField, hn, if_false, lookupField, BsonElement.name]
        exact ih h

theorem childAt_updateChildAt (elts : List BsonElement) (i : Nat)
    (f : BsonValue → BsonValue) (w : BsonValue) (h : childAt elts i = some w) :
    childAt (updateChildAt elts i f) i = some (f w) := by
  induction elts generalizing i with
  | nil => simp [childAt] at h
  | cons e rest ih =>
      obtain ⟨nm, val⟩ := e
      cases i with
      | zero =>
          simp only [childAt, Option.some.injEq] at h
          simp only [BsonElement.value] at h
          simp [updateChildAt, childAt, BsonElement.value, h]
      | succ n =>
          simp only [childAt] at h
          simp only [updateChildAt, childAt]
          exact ih n h

theorem lookupChild_updateChild (v : BsonValue) (p : String) (f : BsonValue → BsonValue)
    (w : BsonValue) (h : lookupChild v p = some w) :
    lookupChild (updateChild v p f) p = some (f w) := by
  cases v with
  | objVal fields =>
      simp only [lookupChild] at h
      simp only [updateChild, lookupChild]
      exact lookupField_updateField fields p f w h
  | arrayVal elts =>
      simp only [lookupChild] at h
      rcases hi : strToIndex p with _ | i
      · rw [hi] at h
        exact Option.noConfusion h
      · rw [hi] at h
        simp only [updateChild, hi, lookupChild]
        exact childAt_updateChildAt elts i f w h
  | intVal n => simp [lookupChild] at h
  | doubleVal n => simp [lookupChild] at h
  | strVal s => simp [lookupChild] at h
  | boolVal b => simp [lookupChild] at h

theorem getAtPath_updateAtPath (parts : List String) (f : BsonValue → BsonValue)
    (root : BsonValue) (v : BsonValue) (h : getAtPath parts root = some v) :
    getAtPath parts (updateAtPath parts f root) = some (f v) := by
  induction parts generalizing root with
  | nil =>
      simp only [getAtPath, Option.some.injEq] at h
      simp [getAtPath, updateAtPath, h]
  | cons p rest ih =>
      rcases hl : lookupChild root p with _ | u
      · simp only [getAtPath, hl] at h
        exact Option.noConfusion h
      · simp only [getAtPath, hl] at h
        have hl2 := lookupChild_updateChild root p (fun w => updateAtPath rest f w) u hl
        simp only [updateAtPath, getAtPath, hl2]
        exact ih u h

theorem isEmpty_false_of_ne_nil {α : Type} (l : List α) (h : l ≠ []) : l.isEmpty = false := by
  cases l with
  | nil => exact absurd rfl h
  | cons a as => rfl

theorem prepare_match_spec (m : ModifierPull) (root : BsonValue) (mf : String) (e0 : ExecInfo)
    (elts : List BsonElement)
    (hguard : m.posDollar = 0 ∨ mf ≠ "")
    (hfind : findLongestPref (m.bindDollar mf).fieldRef root =
      some ((m.bindDollar mf).fieldRef.length - 1, BsonValue.arrayVal elts))
    (hmatch : ∃ e ∈ elts, m.isMatch e = true) :
    m.prepare root mf e0 = PrepareResult.mk Status.ok (m.bindDollar mf)
      (PreparedState.mk ((m.bindDollar mf).fieldRef.length - 1)
        (some (BsonValue.arrayVal elts)) (if m.posDollar ≠ 0 then mf else "")
        ((m.bindDollar mf).collectToRemove elts 0) false)
      (ExecInfo.mk (some (m.bindDollar mf).fieldRef) e0.noOp) root := by
  have hg : ¬ (m.posDollar ≠ 0 ∧ mf = "") := by
    rcases hguard with h0 | hmf
    · intro hc
      exact hc.1 h0
    · intro hc
      exact hmf hc.2
  have heltsne : elts ≠ [] := by
    rcases hmatch with ⟨e, he, _⟩
    exact List.ne_nil_of_mem he
  have hcolne : (m.bindDollar mf).collectToRemove elts 0 ≠ [] := by
    rw [bindDollar_collect]
    exact collect_ne_nil_of_match m elts 0 hmatch
  simp only [ModifierPull.prepare, hg, if_false, hfind]
  simp only [afterResolve, Nat.lt_irrefl, if_false,
    isEmpty_false_of_ne_nil elts heltsne, Bool.false_eq_true,
    isEmpty_false_of_ne_nil _ hcolne]

theorem findLongestPref_ne_nil (parts : List String) (root : BsonValue)
    (x : Nat × BsonValue) (h : findLongestPref parts root = some x) : parts ≠ [] := by
  intro hc
  subst hc
  simp [findLongestPref] at h

/-- C1: for every document in which at least one element of the resolved array
satisfies the removal criterion, `prepare` succeeds with no-op = false; `apply`
then removes exactly the matched elements from the resolved array (the array
at the full path becomes the in-order sublist of non-matched elements), and a
subsequent `log` appends exactly one set entry for the full dotted path whose
value is an array value-equal to the post-removal array, the copied entries
carrying empty field names. -/
theorem pull_prepare_apply_log_removes_matched
    (m : ModifierPull) (root : BsonValue) (mf : String) (e0 : ExecInfo) (lb : LogBuilder)
    (elts : List BsonElement)
    (hguard : m.posDollar = 0 ∨ mf ≠ "")
    (hfind : findLongestPref (m.bindDollar mf).fieldRef root =
      some ((m.bindDollar mf).fieldRef.length - 1, BsonValue.arrayVal elts))
    (hmatch : ∃ e ∈ elts, m.isMatch e = true) :
    (m.prepare root mf e0).status = Status.ok ∧
    (m.prepare root mf e0).ps.noOp = false ∧
    ((m.bindDollar mf).apply (m.prepare root mf e0).ps root).1 = Status.ok ∧
    getAtPath (m.bindDollar mf).fieldRef
        ((m.bindDollar mf).apply (m.prepare root mf e0).ps root).2 =
      some (BsonValue.arrayVal (elts.filter (fun e => ! m.isMatch e))) ∧
    (m.bindDollar mf).log (m.prepare root mf e0).ps
        ((m.bindDollar mf).apply (m.prepare root mf e0).ps root).2 LogOracle.allOk lb =
      (Status.ok, LogBuilder.mk
        (lb.setEntries ++ [BsonElement.mk (dottedField (m.bindDollar mf).fieldRef)
          (BsonValue.arrayVal ((elts.filter (fun e => ! m.isMatch e)).map
            (fun e => BsonElement.mk "" e.value)))])
        lb.unsetEntries) := by
  have hprep := prepare_match_spec m root mf e0 elts hguard hfind hmatch
  have hne : (m.bindDollar mf).fieldRef ≠ [] := findLongestPref_ne_nil _ root _ hfind
  have hget : getAtPath (m.bindDollar mf).fieldRef root = some (BsonValue.arrayVal elts) :=
    findLongestPref_full _ root _ hfind hne
  have hfilter : elts.filter (fun e => ! (m.bindDollar mf).isMatch e) =
      elts.filter (fun e => ! m.isMatch e) := by
    apply List.filter_congr
    intro e _
    rw [bindDollar_isMatch]
  have hpost : getAtPath (m.bindDollar mf).fieldRef
      ((m.bindDollar mf).apply (m.prepare root mf e0).ps root).2 =
      some (BsonValue.arrayVal (elts.filter (fun e => ! m.isMatch e))) := by
    rw [hprep]
    simp only [ModifierPull.apply]
    have hupd := getAtPath_updateAtPath (m.bindDollar mf).fieldRef
      (pullElements ((m.bindDollar mf).collectToRemove elts 0)) root
      (BsonValue.arrayVal elts) hget
    rw [hupd]
    simp only [pullElements, removeIndices_collect, hfilter]
  refine ⟨by rw [hprep], by rw [hprep], by simp [ModifierPull.apply], hpost, ?_⟩
  have hps : (m.prepare root mf e0).ps.elemFound = some (BsonValue.arrayVal elts) := by
    rw [hprep]
  have hidx : (m.prepare root mf e0).ps.idxFound = (m.bindDollar mf).fieldRef.length - 1 := by
    rw [hprep]
  simp only [ModifierPull.log, hps, hidx, Option.isNone_some, Nat.lt_irrefl, or_false,
    Bool.false_eq_true, if_false]
  simp only [currentArrayChildren, hpost, allOk_makeArrayOk, not_true, if_false,
    copyChildren_allOk, allOk_addToSetsResult]

/-- Witness: C1's theorem applied to pulling the literal 2 from
`{a: [1, 2, 3]}`. -/
theorem pull_prepare_apply_log_removes_matched_witness :
    ((ModifierPull.mk ["a"] 0 (BsonValue.intVal 2) none false).prepare
        (BsonValue.objVal [BsonElement.mk "a" (BsonValue.arrayVal
          [BsonElement.mk "0" (BsonValue.intVal 1), BsonElement.mk "1" (BsonValue.intVal 2),
           BsonElement.mk "2" (BsonValue.intVal 3)])]) "" (ExecInfo.mk none false)).status =
      Status.ok ∧
    ((ModifierPull.mk ["a"] 0 (BsonValue.intVal 2) none false).prepare
        (BsonValue.objVal [BsonElement.mk "a" (BsonValue.arrayVal
          [BsonElement.mk "0" (BsonValue.intVal 1), BsonElement.mk "1" (BsonValue.intVal 2),
           BsonElement.mk "2" (BsonValue.intVal 3)])]) "" (ExecInfo.mk none false)).ps.noOp =
      false := by
  have h := pull_prepare_apply_log_removes_matched
    (ModifierPull.mk ["a"] 0 (BsonValue.intVal 2) none false)
    (BsonValue.objVal [BsonElement.mk "a" (BsonValue.arrayVal
      [BsonElement.mk "0" (BsonValue.intVal 1), BsonElement.mk "1" (BsonValue.intVal 2),
       BsonElement.mk "2" (BsonValue.intVal 3)])]) "" (ExecInfo.mk none false)
    (LogBuilder.mk [] [])
    [BsonElement.mk "0" (BsonValue.intVal 1), BsonElement.mk "1" (BsonValue.intVal 2),
     BsonElement.mk "2" (BsonValue.intVal 3)]
    (Or.inl rfl) rfl
    ⟨BsonElement.mk "1" (BsonValue.intVal 2),
      List.mem_cons_of_mem _ (List.mem_cons_self _ _), rfl⟩
  exact ⟨h.1, h.2.1⟩

/-- The target path does not exist at all, or resolves only to a proper prefix
of the descriptor. -/
def missingOrPartialPath (parts : List String) (root : BsonValue) : Bool :=
  match findLongestPref parts root with
  | none => true
  | some (idx, _) => decide (idx + 1 < parts.length)

/-- C2: when the target path is missing or resolves only partially, `prepare`
succeeds with the no-op flag set on both the prepared state and `execInfo`,
and `log` (without `apply`) appends exactly one unset entry for the full
dotted path. -/
theorem pull_prepare_missing_path_noop
    (m : ModifierPull) (root : BsonValue) (mf : String) (e0 : ExecInfo) (lb : LogBuilder)
    (hguard : m.posDollar = 0 ∨ mf ≠ "")
    (hmiss : missingOrPartialPath (m.bindDollar mf).fieldRef root = true) :
    (m.prepare root mf e0).status = Status.ok ∧
    (m.prepare root mf e0).ps.noOp = true ∧
    (m.prepare root mf e0).execInfo.noOp = true ∧
    (m.prepare root mf e0).execInfo.fieldRef0 = some (m.bindDollar mf).fieldRef ∧
    (m.bindDollar mf).log (m.prepare root mf e0).ps root LogOracle.allOk lb =
      (Status.ok, LogBuilder.mk lb.setEntries
        (lb.unsetEntries ++
          [BsonElement.mk (dottedField (m.bindDollar mf).fieldRef) (BsonValue.intVal 1)])) := by
  have hg : ¬ (m.posDollar ≠ 0 ∧ mf = "") := by
    rcases hguard with h0 | hmf
    · intro hc
      exact hc.1 h0
    · intro hc
      exact hmf hc.2
  rcases hf : findLongestPref (m.bindDollar mf).fieldRef root with _ | ⟨idx, v⟩
  · simp only [ModifierPull.prepare, hg, if_false, hf]
    simp only [afterResolve, noOpResult]
    refine ⟨trivial, trivial, trivial, trivial, ?_⟩
    simp only [ModifierPull.log, Option.isNone_none, true_or, if_true, allOk_makeIntOk,
      not_true, if_false, allOk_addToUnsetsResult]
  · have hidx : idx < (m.bindDollar mf).fieldRef.length - 1 := by
      rw [missingOrPartialPath, hf] at hmiss
      simp only [decide_eq_true_eq] at hmiss
      omega
    simp only [ModifierPull.prepare, hg, if_false, hf]
    simp only [afterResolve, hidx, if_true]
    simp only [noOpResult]
    refine ⟨trivial, trivial, trivial, trivial, ?_⟩
    simp only [ModifierPull.log, hidx, Option.isNone_some, Bool.false_eq_true, false_or,
      iff_true, if_true, allOk_makeIntOk, not_true, if_false, allOk_addToUnsetsResult]

/-- Witness: C2's theorem applied to `{$pull: {"a.b": 1}}` against the empty
document (path entirely missing). -/
theorem pull_prepare_missing_path_noop_witness :
    ((ModifierPull.mk ["a", "b"] 0 (BsonValue.intVal 1) none false).prepare
        (BsonValue.objVal []) "" (ExecInfo.mk none false)).status = Status.ok ∧
    ((ModifierPull.mk ["a", "b"] 0 (BsonValue.intVal 1) none false).prepare
        (BsonValue.objVal []) "" (ExecInfo.mk none false)).ps.noOp = true ∧
    ((ModifierPull.mk ["a", "b"] 0 (BsonValue.intVal 1) none false).prepare
        (BsonValue.objVal []) "" (ExecInfo.mk none false)).execInfo.noOp = true := by
  have h := pull_prepare_missing_path_noop
    (ModifierPull.mk ["a", "b"] 0 (BsonValue.intVal 1) none false)
    (BsonValue.objVal []) "" (ExecInfo.mk none false) (LogBuilder.mk [] [])
    (Or.inl rfl) rfl
  exact ⟨h.1, h.2.1, h.2.2.1⟩

/-- C3: when the full path resolves to a node that is not an array, `prepare`
fails with the `BadValue` code (the spec's `InvalidArgument` class) and the
message "Cannot apply $pull to a non-array value", and neither no-op slot is
set: the prepared state's flag stays false and `execInfo`'s keeps the
caller-initialized value. -/
theorem pull_prepare_non_array_fails
    (m : ModifierPull) (root : BsonValue) (mf : String) (e0 : ExecInfo)
    (v : BsonValue)
    (hguard : m.posDollar = 0 ∨ mf ≠ "")
    (hfind : findLongestPref (m.bindDollar mf).fieldRef root =
      some ((m.bindDollar mf).fieldRef.length - 1, v))
    (hnotarr : v.getType ≠ BSONType.array) :
    (m.prepare root mf e0).status =
      Status.err ErrorCodes.badValue "Cannot apply $pull to a non-array value" ∧
    (m.prepare root mf e0).ps.noOp = false ∧
    (m.prepare root mf e0).execInfo.noOp = e0.noOp ∧
    (m.prepare root mf e0).execInfo.fieldRef0 = some (m.bindDollar mf).fieldRef := by
  have hg : ¬ (m.posDollar ≠ 0 ∧ mf = "") := by
    rcases hguard with h0 | hmf
    · intro hc
      exact hc.1 h0
    · intro hc
      exact hmf hc.2
  simp only [ModifierPull.prepare, hg, if_false, hfind]
  cases v with
  | arrayVal elts => exact absurd rfl hnotarr
  | intVal n => simp [afterResolve, Nat.lt_irrefl]
  | doubleVal n => simp [afterResolve, Nat.lt_irrefl]
  | strVal s => simp [afterResolve, Nat.lt_irrefl]
  | boolVal b => simp [afterResolve, Nat.lt_irrefl]
  | objVal fields => simp [afterResolve, Nat.lt_irrefl]

/-- Witness: C3's theorem applied to `{$pull: {a: 1}}` against `{a: 3}`. -/
theorem pull_prepare_non_array_fails_witness :
    ((ModifierPull.mk ["a"] 0 (BsonValue.intVal 1) none false).prepare
        (BsonValue.objVal [BsonElement.mk "a" (BsonValue.intVal 3)]) ""
        (ExecInfo.mk none false)).status =
      Status.err ErrorCodes.badValue "Cannot apply $pull to a non-array value" ∧
    ((ModifierPull.mk ["a"] 0 (BsonValue.intVal 1) none false).prepare
        (BsonValue.objVal [BsonElement.mk "a" (BsonValue.intVal 3)]) ""
        (ExecInfo.mk none false)).ps.noOp = false := by
  have h := pull_prepare_non_array_fails
    (ModifierPull.mk ["a"] 0 (BsonValue.intVal 1) none false)
    (BsonValue.objVal [BsonElement.mk "a" (BsonValue.intVal 3)]) ""
    (ExecInfo.mk none false) (BsonValue.intVal 3)
    (Or.inl rfl) rfl (by simp [BsonValue.getType])
  exact ⟨h.1, h.2.1⟩

/-- C4: when the full path resolves to an array that is empty or has no
element satisfying the criterion, `prepare` succeeds with no-op = true on
both the prepared state and `execInfo`. -/
theorem pull_prepare_no_matches_noop
    (m : ModifierPull) (root : BsonValue) (mf : String) (e0 : ExecInfo)
    (elts : List BsonElement)
    (hguard : m.posDollar = 0 ∨ mf ≠ "")
    (hfind : findLongestPref (m.bindDollar mf).fieldRef root =
      some ((m.bindDollar mf).fieldRef.length - 1, BsonValue.arrayVal elts))
    (hno : elts = [] ∨ ∀ e ∈ elts, m.isMatch e = false) :
    (m.prepare root mf e0).status = Status.ok ∧
    (m.prepare root mf e0).ps.noOp = true ∧
    (m.prepare root mf e0).execInfo.noOp = true := by
  have hg : ¬ (m.posDollar ≠ 0 ∧ mf = "") := by
    rcases hguard with h0 | hmf
    · intro hc
      exact hc.1 h0
    · intro hc
      exact hmf hc.2
  simp only [ModifierPull.prepare, hg, if_false, hfind]
  rcases hno with hnil | hall
  · subst hnil
    simp [afterResolve, Nat.lt_irrefl, noOpResult, List.isEmpty_nil]
  · rcases helts : elts with _ | ⟨x, xs⟩
    · simp [afterResolve, Nat.lt_irrefl, noOpResult]
    · have hcol : (m.bindDollar mf).collectToRemove (x :: xs) 0 = [] := by
        rw [bindDollar_collect]
        exact collect_eq_nil_of_no_match m (x :: xs) 0 (helts ▸ hall)
      simp [afterResolve, Nat.lt_irrefl, noOpResult, hcol]

/-- Witness: C4's theorem applied to `{$pull: {a: 9}}` against `{a: [1, 2]}`
(array present, nothing matches). -/
theorem pull_prepare_no_matches_noop_witness :
    ((ModifierPull.mk ["a"] 0 (BsonValue.intVal 9) none false).prepare
        (BsonValue.objVal [BsonElement.mk "a" (BsonValue.arrayVal
          [BsonElement.mk "0" (BsonValue.intVal 1), BsonElement.mk "1" (BsonValue.intVal 2)])])
        "" (ExecInfo.mk none false)).status = Status.ok ∧
    ((ModifierPull.mk ["a"] 0 (BsonValue.intVal 9) none false).prepare
        (BsonValue.objVal [BsonElement.mk "a" (BsonValue.arrayVal
          [BsonElement.mk "0" (BsonValue.intVal 1), BsonElement.mk "1" (BsonValue.intVal 2)])])
        "" (ExecInfo.mk none false)).ps.noOp = true := by
  have h := pull_prepare_no_matches_noop
    (ModifierPull.mk ["a"] 0 (BsonValue.intVal 9) none false)
    (BsonValue.objVal [BsonElement.mk "a" (BsonValue.arrayVal
      [BsonElement.mk "0" (BsonValue.intVal 1), BsonElement.mk "1" (BsonValue.intVal 2)])])
    "" (ExecInfo.mk none false)
    [BsonElement.mk "0" (BsonValue.intVal 1), BsonElement.mk "1" (BsonValue.intVal 2)]
    (Or.inl rfl) rfl
    (Or.inr (by intro e he; fin_cases he <;> rfl))
  exact ⟨h.1, h.2.1⟩

/-- C5 counterexample: on the "matched field not provided" early return, the
path-descriptor slot of `execInfo` is left unwritten (it keeps the
driver-initialized NULL), so it is not true that both `ExecInfo` slots are
written on every path of `prepare`. -/
theorem pull_execinfo_slots_counterexample :
    ((ModifierPull.mk ["a", "x"] 1 (BsonValue.intVal 1) none false).prepare
        (BsonValue.objVal []) "" (ExecInfo.mk none false)).execInfo.fieldRef0 = none ∧
    ((ModifierPull.mk ["a", "x"] 1 (BsonValue.intVal 1) none false).prepare
        (BsonValue.objVal []) "" (ExecInfo.mk none false)).status =
      Status.err ErrorCodes.badValue "matched field not provided" :=
  ⟨rfl, rfl⟩

/-- C5 (amended): on every `prepare` call that passes the positional-binding
guard, the path-descriptor slot is written (it records the touched field
path), and the no-op slot is written exactly when the no-op decision is true —
otherwise it keeps its caller-initialized value.  On the early error return
before path resolution neither slot is written. -/
theorem pull_execinfo_writes_amended
    (m : ModifierPull) (root : BsonValue) (mf : String) (e0 : ExecInfo)
    (hguard : ¬ (m.posDollar ≠ 0 ∧ mf = "")) :
    (m.prepare root mf e0).execInfo.fieldRef0 = some (m.prepare root mf e0).mod.fieldRef ∧
    (m.prepare root mf e0).execInfo.noOp = (e0.noOp || (m.prepare root mf e0).ps.noOp) := by
  simp only [ModifierPull.prepare, hguard, if_false]
  rcases hf : findLongestPref (m.bindDollar mf).fieldRef root with _ | ⟨idx, v⟩
  · simp [afterResolve, noOpResult]
  · simp only [afterResolve]
    by_cases hidx : idx < (m.bindDollar mf).fieldRef.length - 1
    · simp [hidx, noOpResult]
    · simp only [hidx, if_false]
      cases v with
      | arrayVal elts =>
          by_cases he : elts.isEmpty
          · simp [he, noOpResult]
          · have he' : elts.isEmpty = false := by simpa using he
            simp only [he', Bool.false_eq_true, if_false]
            by_cases hc : ((m.bindDollar mf).collectToRemove elts 0).isEmpty
            · simp [hc, noOpResult]
            · have hc' : ((m.bindDollar mf).collectToRemove elts 0).isEmpty = false := by
                simpa using hc
              simp [hc', noOpResult]
      | intVal n => simp
      | doubleVal n => simp
      | strVal s => simp
      | boolVal b => simp
      | objVal fields => simp

/-- Witness: the amended C5 theorem applied to `{$pull: {a: 1}}` against the
empty document. -/
theorem pull_execinfo_writes_amended_witness :
    ((ModifierPull.mk ["a"] 0 (BsonValue.intVal 1) none false).prepare
        (BsonValue.objVal []) "" (ExecInfo.mk none false)).execInfo.fieldRef0 =
      some ((ModifierPull.mk ["a"] 0 (BsonValue.intVal 1) none false).prepare
        (BsonValue.objVal []) "" (ExecInfo.mk none false)).mod.fieldRef ∧
    ((ModifierPull.mk ["a"] 0 (BsonValue.intVal 1) none false).prepare
        (BsonValue.objVal []) "" (ExecInfo.mk none false)).execInfo.noOp =
      (false || ((ModifierPull.mk ["a"] 0 (BsonValue.intVal 1) none false).prepare
        (BsonValue.objVal []) "" (ExecInfo.mk none false)).ps.noOp) :=
  pull_execinfo_writes_amended (ModifierPull.mk ["a"] 0 (BsonValue.intVal 1) none false)
    (BsonValue.objVal []) "" (ExecInfo.mk none false) (by simp)

/-- C6 counterexample: in the fully-resolved branch, a rejected `pushBack`
(append) step makes `log` return the `BadValue` code, not `InternalError`. -/
theorem pull_log_append_failure_counterexample :
    ((ModifierPull.mk ["a"] 0 (BsonValue.intVal 1) none false).log
        (PreparedState.mk 0
          (some (BsonValue.arrayVal [BsonElement.mk "0" (BsonValue.intVal 2)])) "" [] false)
        (BsonValue.objVal [BsonElement.mk "a"
          (BsonValue.arrayVal [BsonElement.mk "0" (BsonValue.intVal 2)])])
        (LogOracle.mk true true (fun _ => true) (fun _ => false) Status.ok Status.ok)
        (LogBuilder.mk [] [])).1 =
      Status.err ErrorCodes.badValue "could not append entry for $pull log" ∧
    ErrorCodes.badValue ≠ ErrorCodes.internalError :=
  ⟨rfl, by decide⟩

/-- C6 (amended): in the fully-resolved branch every failure of `log` is one
of: `InternalError` for a rejected log-array creation, `InternalError` for a
rejected copy step, `BadValue` for a rejected append (`pushBack`) step, or the
status returned by the accumulator's `addToSets` itself. -/
theorem pull_log_set_branch_failure_statuses
    (m : ModifierPull) (ps : PreparedState) (doc : BsonValue) (oracle : LogOracle)
    (lb : LogBuilder)
    (hfull : ps.elemFound.isNone = false)
    (hidx : ¬ ps.idxFound < m.fieldRef.length - 1)
    (hfail : (m.log ps doc oracle lb).1 ≠ Status.ok) :
    (m.log ps doc oracle lb).1 =
        Status.err ErrorCodes.internalError "cannot create details for $pull mod" ∨
      (m.log ps doc oracle lb).1 =
        Status.err ErrorCodes.internalError "could create copy element" ∨
      (m.log ps doc oracle lb).1 =
        Status.err ErrorCodes.badValue "could not append entry for $pull log" ∨
      (m.log ps doc oracle lb).1 = oracle.addToSetsResult := by
  simp only [ModifierPull.log, hfull, hidx, Bool.false_eq_true, false_or, if_false] at hfail ⊢
  by_cases hmk : oracle.makeArrayOk
  · simp only [hmk, not_true, if_false] at hfail ⊢
    rcases hcopy : copyChildren oracle (currentArrayChildren m doc) 0 with s | copies
    · simp only [hcopy] at hfail ⊢
      rcases copyChildren_error oracle (currentArrayChildren m doc) 0 s hcopy with h1 | h2
      · exact Or.inr (Or.inl h1)
      · exact Or.inr (Or.inr (Or.inl h2))
    · simp only [hcopy] at hfail ⊢
      rcases hset : oracle.addToSetsResult with _ | ⟨c, msg⟩
      · rw [hset] at hfail
        simp at hfail
      · exact Or.inr (Or.inr (Or.inr rfl))
  · have hmk' : oracle.makeArrayOk = false := by simpa using hmk
    simp only [hmk', Bool.not_false, if_true]
    exact Or.inl rfl

/-- Witness: the amended C6 theorem applied to an accumulator that rejects the
log-array creation. -/
theorem pull_log_set_branch_failure_statuses_witness :
    ((ModifierPull.mk ["a"] 0 (BsonValue.intVal 1) none false).log
        (PreparedState.mk 0
          (some (BsonValue.arrayVal [BsonElement.mk "0" (BsonValue.intVal 2)])) "" [] false)
        (BsonValue.objVal [BsonElement.mk "a"
          (BsonValue.arrayVal [BsonElement.mk "0" (BsonValue.intVal 2)])])
        (LogOracle.mk true false (fun _ => true) (fun _ => true) Status.ok Status.ok)
        (LogBuilder.mk [] [])).1 =
        Status.err ErrorCodes.internalError "cannot create details for $pull mod" ∨
      ((ModifierPull.mk ["a"] 0 (BsonValue.intVal 1) none false).log
        (PreparedState.mk 0
          (some (BsonValue.arrayVal [BsonElement.mk "0" (BsonValue.intVal 2)])) "" [] false)
        (BsonValue.objVal [BsonElement.mk "a"
          (BsonValue.arrayVal [BsonElement.mk "0" (BsonValue.intVal 2)])])
        (LogOracle.mk true false (fun _ => true) (fun _ => true) Status.ok Status.ok)
        (LogBuilder.mk [] [])).1 =
        Status.err ErrorCodes.internalError "could create copy element" ∨
      ((ModifierPull.mk ["a"] 0 (BsonValue.intVal 1) none false).log
        (PreparedState.mk 0
          (some (BsonValue.arrayVal [BsonElement.mk "0" (BsonValue.intVal 2)])) "" [] false)
        (BsonValue.objVal [BsonElement.mk "a"
          (BsonValue.arrayVal [BsonElement.mk "0" (BsonValue.intVal 2)])])
        (LogOracle.mk true false (fun _ => true) (fun _ => true) Status.ok Status.ok)
        (LogBuilder.mk [] [])).1 =
        Status.err ErrorCodes.badValue "could not append entry for $pull log" ∨
      ((ModifierPull.mk ["a"] 0 (BsonValue.intVal 1) none false).log
        (PreparedState.mk 0
          (some (BsonValue.arrayVal [BsonElement.mk "0" (BsonValue.intVal 2)])) "" [] false)
        (BsonValue.objVal [BsonElement.mk "a"
          (BsonValue.arrayVal [BsonElement.mk "0" (BsonValue.intVal 2)])])
        (LogOracle.mk true false (fun _ => true) (fun _ => true) Status.ok Status.ok)
        (LogBuilder.mk [] [])).1 =
        (LogOracle.mk true false (fun _ => true) (fun _ => true) Status.ok
          Status.ok).addToSetsResult :=
  pull_log_set_branch_failure_statuses
    (ModifierPull.mk ["a"] 0 (BsonValue.intVal 1) none false)
    (PreparedState.mk 0
      (some (BsonValue.arrayVal [BsonElement.mk "0" (BsonValue.intVal 2)])) "" [] false)
    (BsonValue.objVal [BsonElement.mk "a"
      (BsonValue.arrayVal [BsonElement.mk "0" (BsonValue.intVal 2)])])
    (LogOracle.mk true false (fun _ => true) (fun _ => true) Status.ok Status.ok)
    (LogBuilder.mk [] []) rfl (by decide) (by decide)

/-- C7: in literal-equality mode, an element holding the integer 5 matches the
criterion 5, while elements holding the string "5" or the double 5.0 do not:
the comparison is the document model's canonical type-aware equality and
ignores the elements' field names. -/
theorem pull_isMatch_literal_type_aware (n1 n2 n3 : String) :
    (ModifierPull.mk ["a"] 0 (BsonValue.intVal 5) none false).isMatch
        (BsonElement.mk n1 (BsonValue.intVal 5)) = true ∧
    (ModifierPull.mk ["a"] 0 (BsonValue.intVal 5) none false).isMatch
        (BsonElement.mk n2 (BsonValue.strVal "5")) = false ∧
    (ModifierPull.mk ["a"] 0 (BsonValue.intVal 5) none false).isMatch
        (BsonElement.mk n3 (BsonValue.doubleVal 5)) = false :=
  ⟨rfl, rfl, rfl⟩

/-- C8: after a successful `prepare` with matches followed by `apply`, running
`prepare` again with the same criterion against the resulting document
succeeds and reports no-op = true: no element of the post-apply array still
satisfies the criterion. -/
theorem pull_prepare_idempotent_after_apply
    (m : ModifierPull) (root : BsonValue) (mf : String) (e0 e1 : ExecInfo)
    (elts : List BsonElement)
    (hguard : m.posDollar = 0 ∨ mf ≠ "")
    (hfind : findLongestPref (m.bindDollar mf).fieldRef root =
      some ((m.bindDollar mf).fieldRef.length - 1, BsonValue.arrayVal elts))
    (hmatch : ∃ e ∈ elts, m.isMatch e = true) :
    ((m.bindDollar mf).prepare
        ((m.bindDollar mf).apply (m.prepare root mf e0).ps root).2 mf e1).status =
      Status.ok ∧
    ((m.bindDollar mf).prepare
        ((m.bindDollar mf).apply (m.prepare root mf e0).ps root).2 mf e1).ps.noOp = true := by
  have hprep := prepare_match_spec m root mf e0 elts hguard hfind hmatch
  have hne : (m.bindDollar mf).fieldRef ≠ [] := findLongestPref_ne_nil _ root _ hfind
  have hget : getAtPath (m.bindDollar mf).fieldRef root = some (BsonValue.arrayVal elts) :=
    findLongestPref_full _ root _ hfind hne
  have happly : ((m.bindDollar mf).apply (m.prepare root mf e0).ps root).2 =
      updateAtPath (m.bindDollar mf).fieldRef
        (pullElements ((m.bindDollar mf).collectToRemove elts 0)) root := by
    rw [hprep]
    simp only [ModifierPull.apply]
  have hget2 : getAtPath (m.bindDollar mf).fieldRef
      (updateAtPath (m.bindDollar mf).fieldRef
        (pullElements ((m.bindDollar mf).collectToRemove elts 0)) root) =
      some (BsonValue.arrayVal (elts.filter (fun e => ! (m.bindDollar mf).isMatch e))) := by
    have hupd := getAtPath_updateAtPath (m.bindDollar mf).fieldRef
      (pullElements ((m.bindDollar mf).collectToRemove elts 0)) root
      (BsonValue.arrayVal elts) hget
    rw [hupd]
    simp only [pullElements, removeIndices_collect]
  have hfind2 := findLongestPref_of_getAtPath _ _ _ hget2 hne
  have hg1 : ¬ ((m.bindDollar mf).posDollar ≠ 0 ∧ mf = "") := by
    rw [bindDollar_posDollar]
    rcases hguard with h0 | hmf
    · intro hc
      exact hc.1 h0
    · intro hc
      exact hmf hc.2
  have hcol : (m.bindDollar mf).collectToRemove
      (elts.filter (fun e => ! (m.bindDollar mf).isMatch e)) 0 = [] := by
    rw [bindDollar_collect]
    apply collect_eq_nil_of_no_match
    intro e he
    have hm1 := (List.mem_filter.mp he).2
    rw [bindDollar_isMatch] at hm1
    simpa using hm1
  rw [happly]
  simp only [ModifierPull.prepare, hg1, if_false, bindDollar_idem, hfind2]
  by_cases hpe : (elts.filter (fun e => ! (m.bindDollar mf).isMatch e)).isEmpty
  · simp [afterResolve, Nat.lt_irrefl, noOpResult, hpe]
  · have hpe' : (elts.filter (fun e => ! (m.bindDollar mf).isMatch e)).isEmpty = false := by
      simpa using hpe
    simp [afterResolve, Nat.lt_irrefl, noOpResult, hpe', hcol]

/-- Witness: C8's theorem applied to pulling the literal 2 from `{a: [1, 2]}`. -/
theorem pull_prepare_idempotent_after_apply_witness :
    ((ModifierPull.mk ["a"] 0 (BsonValue.intVal 2) none false).prepare
        ((ModifierPull.mk ["a"] 0 (BsonValue.intVal 2) none false).apply
          ((ModifierPull.mk ["a"] 0 (BsonValue.intVal 2) none false).prepare
            (BsonValue.objVal [BsonElement.mk "a" (BsonValue.arrayVal
              [BsonElement.mk "0" (BsonValue.intVal 1),
               BsonElement.mk "1" (BsonValue.intVal 2)])]) ""
            (ExecInfo.mk none false)).ps
          (BsonValue.objVal [BsonElement.mk "a" (BsonValue.arrayVal
            [BsonElement.mk "0" (BsonValue.intVal 1),
             BsonElement.mk "1" (BsonValue.intVal 2)])])).2 ""
        (ExecInfo.mk none false)).ps.noOp = true := by
  have h := pull_prepare_idempotent_after_apply
    (ModifierPull.mk ["a"] 0 (BsonValue.intVal 2) none false)
    (BsonValue.objVal [BsonElement.mk "a" (BsonValue.arrayVal
      [BsonElement.mk "0" (BsonValue.intVal 1), BsonElement.mk "1" (BsonValue.intVal 2)])])
    "" (ExecInfo.mk none false) (ExecInfo.mk none false)
    [BsonElement.mk "0" (BsonValue.intVal 1), BsonElement.mk "1" (BsonValue.intVal 2)]
    (Or.inl rfl) rfl
    ⟨BsonElement.mk "1" (BsonValue.intVal 2),
      List.mem_cons_of_mem _ (List.mem_cons_self _ _), rfl⟩
  exact h.2

/-- C9: `prepare` never mutates the target document: on every path (success,
no-op or error) the document it hands on is the one it was given.  Only
`apply` rewrites the document, and `log` writes only into the accumulator. -/
theorem pull_prepare_does_not_mutate (m : ModifierPull) (root : BsonValue) (mf : String)
    (e0 : ExecInfo) : (m.prepare root mf e0).doc = root := by
  by_cases hg : m.posDollar ≠ 0 ∧ mf = ""
  · simp [ModifierPull.prepare, hg]
  · simp only [ModifierPull.prepare, hg, if_false]
    rcases hf : findLongestPref (m.bindDollar mf).fieldRef root with _ | ⟨idx, v⟩
    · simp [afterResolve, noOpResult]
    · simp only [afterResolve]
      by_cases hidx : idx < (m.bindDollar mf).fieldRef.length - 1
      · simp [hidx, noOpResult]
      · simp only [hidx, if_false]
        cases v with
        | arrayVal elts =>
            by_cases he : elts.isEmpty
            · simp [he, noOpResult]
            · have he' : elts.isEmpty = false := by simpa using he
              simp only [he', Bool.false_eq_true, if_false]
              by_cases hc : ((m.bindDollar mf).collectToRemove elts 0).isEmpty
              · simp [hc, noOpResult]
              · have hc' : ((m.bindDollar mf).collectToRemove elts 0).isEmpty = false := by
                  simpa using hc
                simp [hc', noOpResult]
        | intVal n => simp
        | doubleVal n => simp
        | strVal s => simp
        | boolVal b => simp
        | objVal fields => simp

/-- C10: `apply` has no failure path of its own: for every prepared state and
document it returns the OK status. -/
theorem pull_apply_always_ok (m : ModifierPull) (ps : PreparedState) (doc : BsonValue) :
    (m.apply ps doc).1 = Status.ok := rfl
